import Mathlib

/-!
Verification development for the single-file Streamlit video editor (`app.py`).

The program keeps an ordered timeline of media items in `st.session_state.timeline`
(each item a dict: images carry a display `duration`, videos carry a trim
`start` and an optional trim `end`), a monotonically increasing `counter` used
to assign ids, UI edit/reorder controls, and a "Render & Export" block that
turns the timeline into one output video via moviepy
(`VideoFileClip`/`ImageClip`/`subclip`/`concatenate_videoclips`/`write_videofile`).

Times are modelled as exact rationals (ℚ). External media probing is modelled
by an environment giving each source path its natural duration and readability.
moviepy's `Clip.subclip(t_start, t_end)` raises iff `t_start > clip.duration`
(a strict comparison in the library source); on success the resulting clip
duration is `t_end - t_start` (with `t_end` defaulting to the clip's duration).
`concatenate_videoclips` produces a clip whose duration is the sum of the parts.
-/

namespace VideoEditor

/-- Environment for external media: the natural duration moviepy would probe
for the source at a path, and whether the source is readable at all
(`VideoFileClip` / `Image.open` succeed). -/
structure MediaEnv where
  natural : String → ℚ
  readable : String → Bool

/-- Per-kind editing fields of one timeline entry, mirroring the dicts built at
`app.py:126` (image: `{"type": "image", "duration": 3}`) and `app.py:141`
(video: `{"type": "video", "start": 0, "end": None}`). -/
inductive ItemFields where
  | image (duration : ℚ)
  | video (start : ℚ) (stop : Option ℚ)
deriving DecidableEq, Repr

/-- One timeline entry: `{"id": ..., "path": ..., ...}`. -/
structure MediaItem where
  id : ℕ
  path : String
  fields : ItemFields
deriving DecidableEq, Repr

instance : Inhabited MediaItem := ⟨⟨0, "", ItemFields.image 3⟩⟩

/-- A time-resolved clip produced by the render loop for one item:
source path, start offset into the source, and resulting clip duration. -/
structure Segment where
  path : String
  startOffset : ℚ
  duration : ℚ
deriving DecidableEq, Repr

/-- One iteration of the render loop (`app.py:211-230`): a video item opens
`VideoFileClip(path)` and applies `subclip(s, e)` when `e` is truthy, else
`subclip(s)` only when `s > 0`; an image item opens the file and builds an
`ImageClip` with its display duration. moviepy's `subclip` raises
iff `t_start > duration`; otherwise the clip duration becomes
`t_end - t_start` with `t_end` defaulting to the natural duration.
An unreadable source makes the constructor itself raise. -/
def renderItem (env : MediaEnv) (it : MediaItem) : Except String Segment :=
  match it.fields with
  | ItemFields.video s stop =>
    if env.readable it.path = false then Except.error "unreadable source"
    else
      let nat := env.natural it.path
      match stop with
      | some e =>
        if s > nat then Except.error "t_start should be smaller than the clip duration"
        else Except.ok ⟨it.path, s, e - s⟩
      | none =>
        if s > 0 then
          if s > nat then Except.error "t_start should be smaller than the clip duration"
          else Except.ok ⟨it.path, s, nat - s⟩
        else Except.ok ⟨it.path, 0, nat⟩
  | ItemFields.image d =>
    if env.readable it.path = false then Except.error "unreadable source"
    else Except.ok ⟨it.path, 0, d⟩

/-- The segment `renderItem` produces when it succeeds (pure projection of the
same branch structure, used to state order-preservation results). -/
def itemSegment (env : MediaEnv) (it : MediaItem) : Segment :=
  match it.fields with
  | ItemFields.video s (some e) => ⟨it.path, s, e - s⟩
  | ItemFields.video s none =>
    if s > 0 then ⟨it.path, s, env.natural it.path - s⟩
    else ⟨it.path, 0, env.natural it.path⟩
  | ItemFields.image d => ⟨it.path, 0, d⟩

/-- Observable events of one render invocation: opening/decoding a source,
starting the encode (`write_videofile`), completing the output file,
and the UI reports (`st.success` / `st.error` / the empty-timeline warning). -/
inductive Ev where
  | warnEmpty
  | decode (path : String)
  | encodeStart
  | fileComplete (name : String)
  | reportSuccess
  | reportError (msg : String)
deriving DecidableEq, Repr

/-- The `for item in st.session_state.timeline` loop of the render block
(`app.py:211-230`): builds the clip list in timeline order, aborting at the
first exception (the surrounding `try` catches it). Also records the decode
events performed up to and including the failing item. -/
def normalizeEv (env : MediaEnv) : List MediaItem → List Ev × Except String (List Segment)
  | [] => ([], Except.ok [])
  | it :: rest =>
    match renderItem env it with
    | Except.error m => ([Ev.decode it.path], Except.error m)
    | Except.ok seg =>
      let r := normalizeEv env rest
      (Ev.decode it.path :: r.1, r.2.map (fun segs => seg :: segs))

/-- Segment sequence the render loop produces (the clip list at `app.py:232`). -/
def normalize (env : MediaEnv) (tl : List MediaItem) : Except String (List Segment) :=
  (normalizeEv env tl).2

/-- Outcome of pressing "Render & Export" (`app.py:204-243`). -/
inductive RenderOutcome where
  | emptyWarning
  | success (outputName : String) (duration : ℚ)
  | failure (msg : String)
deriving DecidableEq, Repr

/-- The whole "Render & Export" handler (`app.py:204-243`): an empty timeline
only gets a sidebar warning; otherwise the loop builds the clips, the clips
are concatenated (total duration = sum of clip durations), and
`write_videofile` writes the output — modelled by the `encodeOk` oracle for
encoder/disk failures. `st.success` is only reached after `write_videofile`
returns, i.e. after the file is fully written and closed; any exception lands
in the `except` arm which reports `st.error`. -/
def renderExport (env : MediaEnv) (encodeOk : Bool) (tl : List MediaItem)
    (outputName : String) : RenderOutcome × List Ev :=
  if tl.isEmpty then (RenderOutcome.emptyWarning, [Ev.warnEmpty])
  else
    match normalizeEv env tl with
    | (evs, Except.error m) => (RenderOutcome.failure m, evs ++ [Ev.reportError m])
    | (evs, Except.ok segs) =>
      let dur := (segs.map (fun sg => sg.duration)).sum
      if encodeOk then
        (RenderOutcome.success outputName dur,
          evs ++ [Ev.encodeStart, Ev.fileComplete outputName, Ev.reportSuccess])
      else
        (RenderOutcome.failure "write failed",
          evs ++ [Ev.encodeStart, Ev.reportError "write failed"])

/-- Resolved per-item duration as the specification words it: `displayDuration`
for an image; `trimEnd - trimStart` when `trimEnd` is present; otherwise
`sourceNaturalDuration - trimStart`. Stated from the spec, for comparison with
the loop's behaviour. -/
def specResolvedDuration (env : MediaEnv) (it : MediaItem) : ℚ :=
  match it.fields with
  | ItemFields.image d => d
  | ItemFields.video s (some e) => e - s
  | ItemFields.video s none => env.natural it.path - s

/-- Validity of one item in the sense of the spec's §3 invariants plus
trim-window-within-source-bounds and readability: image display duration
positive; video trims nonnegative, `trimEnd` (when present) strictly above
`trimStart` and within the source, `trimStart` strictly inside the source
when `trimEnd` is absent. -/
def validItem (env : MediaEnv) (it : MediaItem) : Bool :=
  env.readable it.path &&
    match it.fields with
    | ItemFields.image d => decide (0 < d)
    | ItemFields.video s (some e) =>
      decide (0 ≤ s) && decide (s < e) && decide (e ≤ env.natural it.path)
    | ItemFields.video s none =>
      decide (0 ≤ s) && decide (s < env.natural it.path)

/-- Session state: the ordered timeline plus the id counter
(`st.session_state.timeline`, `st.session_state.counter`, `app.py:88-92`). -/
structure Store where
  timeline : List MediaItem
  counter : ℕ
deriving DecidableEq, Repr

/-- Fresh session state: empty timeline, counter 0. -/
def Store.init : Store := ⟨[], 0⟩

/-- The "Add image" handler (`app.py:126-127`, also the image arm of the
upload handler at `app.py:156`): appends an image item with
`id = counter`, default display duration 3, then increments the counter. -/
def addImage (st : Store) (path : String) : Store :=
  ⟨st.timeline ++ [⟨st.counter, path, ItemFields.image 3⟩], st.counter + 1⟩

/-- The "Add video" handler (`app.py:141-142`, also the video arm of the
upload handler at `app.py:158`): appends a video item with `id = counter`,
`start = 0`, `end = None`, then increments the counter. -/
def addVideo (st : Store) (path : String) : Store :=
  ⟨st.timeline ++ [⟨st.counter, path, ItemFields.video 0 none⟩], st.counter + 1⟩

/-- The per-item video edit controls (`app.py:175-178`): the widgets clamp both
inputs at 0, then the code stores `item['start'] = start` and
`item['end'] = end if end > 0 else None` — an entered end of 0 is the
"to natural end" sentinel. No invariant is checked. Images are untouched by
this branch. -/
def editVideoFields (startIn stopIn : ℚ) (it : MediaItem) : MediaItem :=
  match it.fields with
  | ItemFields.video _ _ =>
    ⟨it.id, it.path, ItemFields.video startIn (if stopIn > 0 then some stopIn else none)⟩
  | ItemFields.image _ => it

/-- The image duration edit control (`app.py:182-183`): stores the entered
display duration (widget-clamped at 0.5). Videos are untouched by this branch. -/
def editImageFields (durIn : ℚ) (it : MediaItem) : MediaItem :=
  match it.fields with
  | ItemFields.image _ => ⟨it.id, it.path, ItemFields.image durIn⟩
  | ItemFields.video _ _ => it

/-- In-place edit of the item at a timeline index (the loop at `app.py:168`
edits `item` in place, i.e. the list cell at `idx`). -/
def editVideo (st : Store) (idx : ℕ) (startIn stopIn : ℚ) : Store :=
  ⟨st.timeline.set idx (editVideoFields startIn stopIn (st.timeline.getD idx default)),
    st.counter⟩

/-- In-place image duration edit at a timeline index (`app.py:182-183`). -/
def editImage (st : Store) (idx : ℕ) (durIn : ℚ) : Store :=
  ⟨st.timeline.set idx (editImageFields durIn (st.timeline.getD idx default)), st.counter⟩

/-- The Remove handler (`app.py:184-194`): `timeline.pop(to_remove)` removes
the entry at the clicked index. -/
def removeAt (st : Store) (idx : ℕ) : Store :=
  ⟨st.timeline.eraseIdx idx, st.counter⟩

/-- Swap of the adjacent entries at positions `i` and `i+1` — the Python tuple
assignment `timeline[i], timeline[i+1] = timeline[i+1], timeline[i]`. -/
def swapAdj {α : Type} : List α → ℕ → List α
  | a :: b :: rest, 0 => b :: a :: rest
  | a :: rest, n + 1 => a :: swapAdj rest n
  | l, _ => l

/-- The Move Up handler (`app.py:188-189`): guarded by `idx > 0`, swaps the
entries at `idx-1` and `idx`; at the first position the guard fails and
nothing happens. -/
def moveUp (st : Store) (idx : ℕ) : Store :=
  if 0 < idx ∧ idx < st.timeline.length then ⟨swapAdj st.timeline (idx - 1), st.counter⟩
  else st

/-- The Move Down handler (`app.py:190-191`): guarded by
`idx < len(timeline) - 1`, swaps the entries at `idx` and `idx+1`; at the last
position the guard fails and nothing happens. -/
def moveDown (st : Store) (idx : ℕ) : Store :=
  if idx < st.timeline.length - 1 then ⟨swapAdj st.timeline idx, st.counter⟩
  else st

/-- One UI action on the session state. -/
inductive Op where
  | addImage (path : String)
  | addVideo (path : String)
  | remove (idx : ℕ)
  | up (idx : ℕ)
  | down (idx : ℕ)
  | editV (idx : ℕ) (startIn stopIn : ℚ)
  | editI (idx : ℕ) (durIn : ℚ)

/-- Interpretation of one UI action. -/
def applyOp (st : Store) : Op → Store
  | Op.addImage p => addImage st p
  | Op.addVideo p => addVideo st p
  | Op.remove i => removeAt st i
  | Op.up i => moveUp st i
  | Op.down i => moveDown st i
  | Op.editV i s e => editVideo st i s e
  | Op.editI i d => editImage st i d

/-- Session run: the state after a sequence of UI actions from a fresh session. -/
def run (ops : List Op) : Store :=
  ops.foldl applyOp Store.init

/-- Store invariant: timeline ids are pairwise distinct and all below the
counter. -/
def StoreInv (st : Store) : Prop :=
  (st.timeline.map (fun it => it.id)).Nodup ∧ ∀ it ∈ st.timeline, it.id < st.counter

/-- Live-iteration model of the render loop. `for item in st.session_state.timeline`
iterates over the live session-state list (CPython list iteration: advance an
index, re-check it against the current length each step), not over a captured
copy. `sched i tl` is the timeline after whatever mutation happens between
processing item `i` and item `i+1` (identity when nothing interleaves). Fuel
bounds the iteration so the model is total; every statement below supplies
enough fuel for the loop to run to completion. -/
def liveNormalize (env : MediaEnv) :
    ℕ → ℕ → List MediaItem → (ℕ → List MediaItem → List MediaItem) →
      Except String (List Segment)
  | 0, _, _, _ => Except.ok []
  | fuel + 1, i, tl, sched =>
    if h : i < tl.length then
      match renderItem env (tl.get ⟨i, h⟩) with
      | Except.error m => Except.error m
      | Except.ok seg =>
        match liveNormalize env fuel (i + 1) (sched i tl) sched with
        | Except.error m => Except.error m
        | Except.ok segs => Except.ok (seg :: segs)
    else Except.ok []

section Lemmas

variable (env : MediaEnv)

/-- A valid item renders successfully, to its segment projection. -/
theorem renderItem_of_valid (it : MediaItem) (hv : validItem env it = true) :
    renderItem env it = Except.ok (itemSegment env it) := by
  rcases it with ⟨i, p, f⟩
  cases f with
  | image d =>
    simp only [validItem, Bool.and_eq_true, decide_eq_true_eq] at hv
    simp [renderItem, itemSegment, hv.1]
  | video s stop =>
    cases stop with
    | some e =>
      simp only [validItem, Bool.and_eq_true, decide_eq_true_eq] at hv
      obtain ⟨hr, ⟨hs, hse⟩, hen⟩ := hv
      have hsn : ¬ s > env.natural p := by
        simp only [not_lt]
        exact le_trans (le_of_lt hse) hen
      simp [renderItem, itemSegment, hr, hsn]
    | none =>
      simp only [validItem, Bool.and_eq_true, decide_eq_true_eq] at hv
      obtain ⟨hr, hs, hsn⟩ := hv
      have hns : ¬ s > env.natural p := not_lt.mpr (le_of_lt hsn)
      by_cases h0 : s > 0
      · simp [renderItem, itemSegment, hr, hns, h0]
      · simp [renderItem, itemSegment, hr, h0]

/-- On a valid item the segment's duration is exactly the spec's resolved
duration formula. -/
theorem itemSegment_duration_of_valid (it : MediaItem) (hv : validItem env it = true) :
    (itemSegment env it).duration = specResolvedDuration env it := by
  rcases it with ⟨i, p, f⟩
  cases f with
  | image d => simp [itemSegment, specResolvedDuration]
  | video s stop =>
    cases stop with
    | some e => simp [itemSegment, specResolvedDuration]
    | none =>
      simp only [validItem, Bool.and_eq_true, decide_eq_true_eq] at hv
      obtain ⟨hr, hs, hsn⟩ := hv
      by_cases h0 : s > 0
      · simp [itemSegment, specResolvedDuration, h0]
      · have hz : s = 0 := le_antisymm (not_lt.mp h0) hs
        simp [itemSegment, specResolvedDuration, h0, hz]

/-- On an all-valid timeline the render loop succeeds, decoding each item in
order and producing exactly the per-item segments in order. -/
theorem normalizeEv_of_valid (tl : List MediaItem)
    (hv : ∀ it ∈ tl, validItem env it = true) :
    normalizeEv env tl =
      (tl.map (fun it => Ev.decode it.path), Except.ok (tl.map (itemSegment env))) := by
  induction tl with
  | nil => rfl
  | cons it rest ih =>
    have h1 : validItem env it = true := hv it (List.mem_cons_self it rest)
    have h2 : ∀ x ∈ rest, validItem env x = true :=
      fun x hx => hv x (List.mem_cons_of_mem it hx)
    simp [normalizeEv, renderItem_of_valid env it h1, ih h2, Except.map]

/-- Whenever one item renders successfully, the segment is its projection. -/
theorem renderItem_ok_eq (it : MediaItem) (seg : Segment)
    (h : renderItem env it = Except.ok seg) : seg = itemSegment env it := by
  rcases it with ⟨i, p, f⟩
  cases f with
  | image d =>
    by_cases hr : env.readable p = false
    · simp [renderItem, hr] at h
    · simp [renderItem, hr] at h
      simp [itemSegment, h.symm]
  | video s stop =>
    cases stop with
    | some e =>
      by_cases hr : env.readable p = false
      · simp [renderItem, hr] at h
      · by_cases hs : s > env.natural p
        · simp [renderItem, hr, hs] at h
        · simp [renderItem, hr, hs] at h
          simp [itemSegment, h.symm]
    | none =>
      by_cases hr : env.readable p = false
      · simp [renderItem, hr] at h
      · by_cases h0 : s > 0
        · by_cases hs : s > env.natural p
          · simp [renderItem, hr, h0, hs] at h
          · simp [renderItem, hr, h0, hs] at h
            simp [itemSegment, h0, h.symm]
        · simp [renderItem, hr, h0] at h
          simp [itemSegment, h0, h.symm]

/-- Whenever the loop succeeds, the segment list is the in-order image of the
timeline under the per-item projection (so: same length, same order, each
item exactly once). -/
theorem normalize_ok_eq_map (tl : List MediaItem) (segs : List Segment)
    (h : normalize env tl = Except.ok segs) :
    segs = tl.map (itemSegment env) := by
  induction tl generalizing segs with
  | nil =>
    simp only [normalize, normalizeEv] at h
    cases h
    rfl
  | cons it rest ih =>
    simp only [normalize, normalizeEv] at h
    cases hr : renderItem env it with
    | error m => rw [hr] at h; cases h
    | ok seg =>
      rw [hr] at h
      simp only at h
      cases hrest : (normalizeEv env rest).2 with
      | error m => rw [hrest] at h; cases h
      | ok segs2 =>
        rw [hrest] at h
        simp only [Except.map] at h
        cases h
        have hseg : seg = itemSegment env it := by
          have := renderItem_ok_eq env it seg hr
          exact this
        rw [hseg, List.map_cons, ih segs2 hrest]

/-- Every event recorded by the render loop is a decode event. -/
theorem normalizeEv_events_decode (tl : List MediaItem) :
    ∀ ev ∈ (normalizeEv env tl).1, ∃ p, ev = Ev.decode p := by
  induction tl with
  | nil => intro ev hev; simp [normalizeEv] at hev
  | cons it rest ih =>
    intro ev hev
    simp only [normalizeEv] at hev
    cases hr : renderItem env it with
    | error m =>
      rw [hr] at hev
      simp at hev
      exact ⟨it.path, hev⟩
    | ok seg =>
      rw [hr] at hev
      simp only [List.mem_cons] at hev
      cases hev with
      | inl h => exact ⟨it.path, h⟩
      | inr h => exact ih ev h

/-- A failing item anywhere in the timeline makes the whole loop fail. -/
theorem normalize_error_of_mem (tl : List MediaItem) (it : MediaItem) (m : String)
    (hm : it ∈ tl) (he : renderItem env it = Except.error m) :
    ∃ m2, normalize env tl = Except.error m2 := by
  induction tl with
  | nil => cases hm
  | cons x rest ih =>
    cases hrx : renderItem env x with
    | error mx =>
      exact ⟨mx, by simp [normalize, normalizeEv, hrx]⟩
    | ok seg =>
      rcases List.mem_cons.mp hm with h | h
      · rw [h] at he; rw [he] at hrx; cases hrx
      · obtain ⟨m2, hm2⟩ := ih h
        refine ⟨m2, ?_⟩
        simp only [normalize, normalizeEv, hrx]
        simp only [normalize] at hm2
        rw [hm2]
        rfl

end Lemmas

section ConcreteInputs

/-- Concrete environment for witnesses: every source is readable and every
video probes to a natural duration of 10 seconds. -/
def env0 : MediaEnv := ⟨fun _ => 10, fun _ => true⟩

/-- Concrete timeline for witnesses: one image (duration 3) followed by one
video trimmed to the window [2, 5). -/
def tl0 : List MediaItem :=
  [⟨0, "a.jpg", ItemFields.image 3⟩, ⟨1, "b.mp4", ItemFields.video 2 (some 5)⟩]

end ConcreteInputs

/-- C1: for every non-empty timeline whose items are valid, the duration of the
rendered output equals the sum of each item's resolved duration
(displayDuration for an image; trimEnd - trimStart, or natural length -
trimStart, for a video). In this exact-rational model the equality is exact,
hence in particular within one frame-interval (1/fps) of rounding error. -/
theorem render_duration_eq_sum_resolved (env : MediaEnv) (tl : List MediaItem)
    (name : String) (fps : ℚ) (hfps : 0 < fps) (hne : tl ≠ [])
    (hv : ∀ it ∈ tl, validItem env it = true) :
    ∃ d, (renderExport env true tl name).1 = RenderOutcome.success name d ∧
      d = (tl.map (specResolvedDuration env)).sum ∧
      |d - (tl.map (specResolvedDuration env)).sum| ≤ 1 / fps := by
  have hmap : tl.map (fun it => (itemSegment env it).duration) =
      tl.map (specResolvedDuration env) :=
    List.map_congr_left (fun it hit => itemSegment_duration_of_valid env it (hv it hit))
  refine ⟨(tl.map (specResolvedDuration env)).sum, ?_, rfl, ?_⟩
  · have hemp : tl.isEmpty = false := by
      cases tl with
      | nil => exact absurd rfl hne
      | cons a l => rfl
    have hsum : (List.map ((fun sg => sg.duration) ∘ itemSegment env) tl).sum =
        (List.map (specResolvedDuration env) tl).sum := by
      rw [← hmap]
      rfl
    simp only [renderExport, hemp, Bool.false_eq_true, if_false,
      normalizeEv_of_valid env tl hv]
    simp [List.map_map, hsum]
  · simp only [sub_self, abs_zero]
    positivity

/-- Witness for the duration theorem at the spec's own example: image of 3s
followed by a video trimmed to [2,5) at 24 fps gives a 6-second output. -/
theorem render_duration_eq_sum_resolved_witness :
    ∃ d, (renderExport env0 true tl0 "final_video.mp4").1 =
        RenderOutcome.success "final_video.mp4" d ∧
      d = (tl0.map (specResolvedDuration env0)).sum ∧
      |d - (tl0.map (specResolvedDuration env0)).sum| ≤ 1 / 24 :=
  render_duration_eq_sum_resolved env0 tl0 "final_video.mp4" 24 (by norm_num)
    (by decide) (by decide)

/-- C2: whenever the render loop succeeds, the segment list is exactly the
in-order image of the timeline: same length, the i-th segment comes from the
i-th item, and consequently no item is reordered, dropped or duplicated. -/
theorem segments_in_timeline_order (env : MediaEnv) (tl : List MediaItem)
    (segs : List Segment) (h : normalize env tl = Except.ok segs) :
    segs = tl.map (itemSegment env) ∧
    segs.length = tl.length ∧
    ∀ i : ℕ, segs[i]? = (tl[i]?).map (itemSegment env) := by
  have hm := normalize_ok_eq_map env tl segs h
  refine ⟨hm, ?_, ?_⟩
  · rw [hm, List.length_map]
  · intro i
    rw [hm, List.getElem?_map]

/-- Witness for segment ordering on the concrete two-item timeline. -/
theorem segments_in_timeline_order_witness :
    tl0.map (itemSegment env0) = tl0.map (itemSegment env0) ∧
    (tl0.map (itemSegment env0)).length = tl0.length ∧
    ∀ i : ℕ, (tl0.map (itemSegment env0))[i]? = (tl0[i]?).map (itemSegment env0) :=
  segments_in_timeline_order env0 tl0 (tl0.map (itemSegment env0))
    (by simp [normalize, normalizeEv_of_valid env0 tl0 (by decide)])

/-- C4: pressing Render & Export on an empty timeline only emits the sidebar
warning: the outcome is the empty-timeline report, the event trace is exactly
the warning — no decode, no encode start, no completed file, no success
report — so no decoding or encoding work happens and no output file is
produced. -/
theorem render_empty_timeline (env : MediaEnv) (encodeOk : Bool) (name : String) :
    renderExport env encodeOk [] name = (RenderOutcome.emptyWarning, [Ev.warnEmpty]) := rfl

/-- Case shape of one render invocation: empty warning, loop failure,
successful encode, or encode failure; in the latter three the leading events
are all decode events. -/
theorem renderExport_shape (env : MediaEnv) (encodeOk : Bool) (tl : List MediaItem)
    (name : String) :
    (tl = [] ∧ renderExport env encodeOk tl name =
      (RenderOutcome.emptyWarning, [Ev.warnEmpty])) ∨
    (∃ (evs : List Ev) (m : String), tl ≠ [] ∧ (∀ ev ∈ evs, ∃ p, ev = Ev.decode p) ∧
      renderExport env encodeOk tl name =
        (RenderOutcome.failure m, evs ++ [Ev.reportError m])) ∨
    (∃ (evs : List Ev) (segs : List Segment), tl ≠ [] ∧ encodeOk = true ∧
      (∀ ev ∈ evs, ∃ p, ev = Ev.decode p) ∧
      renderExport env encodeOk tl name =
        (RenderOutcome.success name ((segs.map (fun sg => sg.duration)).sum),
         evs ++ [Ev.encodeStart, Ev.fileComplete name, Ev.reportSuccess])) ∨
    (∃ evs : List Ev, tl ≠ [] ∧ encodeOk = false ∧
      (∀ ev ∈ evs, ∃ p, ev = Ev.decode p) ∧
      renderExport env encodeOk tl name =
        (RenderOutcome.failure "write failed",
         evs ++ [Ev.encodeStart, Ev.reportError "write failed"])) := by
  by_cases hemp : tl.isEmpty
  · left
    have : tl = [] := by
      cases tl with
      | nil => rfl
      | cons a l => simp [List.isEmpty] at hemp
    exact ⟨this, by simp [renderExport, hemp]⟩
  · have hne : tl ≠ [] := by
      cases tl with
      | nil => simp [List.isEmpty] at hemp
      | cons a l => simp
    have hempf : tl.isEmpty = false := by
      cases h : tl.isEmpty with
      | false => rfl
      | true => exact absurd h hemp
    cases hN : normalizeEv env tl with
    | mk evs res =>
      have hdec : ∀ ev ∈ evs, ∃ p, ev = Ev.decode p := by
        have h := normalizeEv_events_decode env tl
        rw [hN] at h
        exact h
      cases res with
      | error m =>
        right; left
        exact ⟨evs, m, hne, hdec, by simp [renderExport, hempf, hN]⟩
      | ok segs =>
        cases hE : encodeOk with
        | true =>
          right; right; left
          exact ⟨evs, segs, hne, rfl, hdec, by simp [renderExport, hempf, hN]⟩
        | false =>
          right; right; right
          exact ⟨evs, hne, rfl, hdec, by simp [renderExport, hempf, hN]⟩

/-- C6: a render invocation that fails never reports success and never reports
a completed output file — any partial output is not reported as a success —
while a successful invocation reports success only after the file-complete
event, i.e. only after `write_videofile` has fully written and closed the
file. -/
theorem failed_render_not_reported_complete (env : MediaEnv) (encodeOk : Bool)
    (tl : List MediaItem) (name : String) :
    (∀ d, (renderExport env encodeOk tl name).1 = RenderOutcome.success name d →
      encodeOk = true ∧
      ∃ evs, (renderExport env encodeOk tl name).2 =
        evs ++ [Ev.encodeStart, Ev.fileComplete name, Ev.reportSuccess]) ∧
    (∀ m, (renderExport env encodeOk tl name).1 = RenderOutcome.failure m →
      Ev.reportSuccess ∉ (renderExport env encodeOk tl name).2 ∧
      (∀ nm, Ev.fileComplete nm ∉ (renderExport env encodeOk tl name).2) ∧
      Ev.reportError m ∈ (renderExport env encodeOk tl name).2) ∧
    ((renderExport env encodeOk tl name).1 = RenderOutcome.emptyWarning →
      (renderExport env encodeOk tl name).2 = [Ev.warnEmpty]) := by
  rcases renderExport_shape env encodeOk tl name with
    ⟨htl, hR⟩ | ⟨evs, m0, hne, hdec, hR⟩ | ⟨evs, segs, hne, hE, hdec, hR⟩ |
    ⟨evs, hne, hE, hdec, hR⟩
  · refine ⟨?_, ?_, ?_⟩
    · intro d h; rw [hR] at h; cases h
    · intro m h; rw [hR] at h; cases h
    · intro _; rw [hR]
  · refine ⟨?_, ?_, ?_⟩
    · intro d h; rw [hR] at h; cases h
    · intro m h
      rw [hR] at h
      cases h
      rw [hR]
      refine ⟨?_, ?_, ?_⟩
      · intro hmem
        rcases List.mem_append.mp hmem with hl | hr
        · obtain ⟨p, hp⟩ := hdec _ hl; cases hp
        · simp at hr
      · intro nm hmem
        rcases List.mem_append.mp hmem with hl | hr
        · obtain ⟨p, hp⟩ := hdec _ hl; cases hp
        · simp at hr
      · simp
    · intro h; rw [hR] at h; cases h
  · refine ⟨?_, ?_, ?_⟩
    · intro d h
      rw [hR] at h
      cases h
      exact ⟨hE, evs, by rw [hR]⟩
    · intro m h; rw [hR] at h; cases h
    · intro h; rw [hR] at h; cases h
  · refine ⟨?_, ?_, ?_⟩
    · intro d h; rw [hR] at h; cases h
    · intro m h
      rw [hR] at h
      cases h
      rw [hR]
      refine ⟨?_, ?_, ?_⟩
      · intro hmem
        rcases List.mem_append.mp hmem with hl | hr
        · obtain ⟨p, hp⟩ := hdec _ hl; cases hp
        · simp at hr
      · intro nm hmem
        rcases List.mem_append.mp hmem with hl | hr
        · obtain ⟨p, hp⟩ := hdec _ hl; cases hp
        · simp at hr
      · simp
    · intro h; rw [hR] at h; cases h

/-- Witness: with the encoder failing on the valid two-item timeline, the
render reports the write failure and never reports success or a complete
file. -/
theorem failed_render_not_reported_complete_witness :
    Ev.reportSuccess ∉ (renderExport env0 false tl0 "out.mp4").2 ∧
    (∀ nm, Ev.fileComplete nm ∉ (renderExport env0 false tl0 "out.mp4").2) ∧
    Ev.reportError "write failed" ∈ (renderExport env0 false tl0 "out.mp4").2 :=
  (failed_render_not_reported_complete env0 false tl0 "out.mp4").2.1 "write failed"
    (by
      have h := normalizeEv_of_valid env0 tl0 (by decide)
      simp [renderExport, h, show tl0.isEmpty = false from rfl])

section ClaimC5

/-- Environment in which every source probes to a natural duration of exactly
5 seconds. -/
def env5 : MediaEnv := ⟨fun _ => 5, fun _ => true⟩

/-- Video item whose trim start equals the source's natural duration, with no
trim end. -/
def itC5 : MediaItem := ⟨0, "v.mp4", ItemFields.video 5 none⟩

/-- C5 counterexample: with `trimEnd` absent and `trimStart` exactly equal to
the natural duration (so `trimStart >= sourceNaturalDuration` holds), the
claim demands an `InvalidTrim` failure aborting the render; instead moviepy's
`subclip` check is strict (`t_start > duration`), the item resolves to a
zero-duration segment, and the render proceeds all the way to a successful
encode. -/
theorem trim_at_natural_not_rejected :
    itC5.fields = ItemFields.video 5 none ∧
    env5.natural itC5.path ≤ 5 ∧
    renderItem env5 itC5 = Except.ok ⟨"v.mp4", 5, 0⟩ ∧
    (renderExport env5 true [itC5] "o.mp4").1 = RenderOutcome.success "o.mp4" 0 := by
  refine ⟨rfl, by norm_num [env5, itC5], ?_, ?_⟩
  · norm_num [renderItem, itC5, env5]
  · norm_num [renderExport, normalizeEv, renderItem, itC5, env5, Except.map]

/-- C5 (amended): for a video item, the resolved duration is
`trimEnd - trimStart` when `trimEnd` is present, and
`sourceNaturalDuration - trimStart` when it is absent; in the absent case the
item fails only when `trimStart` is STRICTLY greater than the natural duration
(at `trimStart = sourceNaturalDuration` a zero-duration segment is produced
instead of a failure), and any item failure aborts the whole render before any
encoding: the outcome is a failure and no encode-start or file-complete event
occurs. -/
theorem video_duration_resolution (env : MediaEnv) (it : MediaItem) (s : ℚ)
    (stop : Option ℚ) (name : String)
    (hit : it.fields = ItemFields.video s stop)
    (hr : env.readable it.path = true) (hs : 0 ≤ s)
    (hnat : 0 ≤ env.natural it.path) :
    (∀ e, stop = some e → s ≤ env.natural it.path →
      renderItem env it = Except.ok ⟨it.path, s, e - s⟩) ∧
    (stop = none → s ≤ env.natural it.path →
      renderItem env it = Except.ok ⟨it.path, s, env.natural it.path - s⟩) ∧
    (stop = none → env.natural it.path < s →
      ∃ m, renderItem env it = Except.error m) ∧
    (∀ (tl : List MediaItem) (encodeOk : Bool) (m : String), it ∈ tl →
      renderItem env it = Except.error m →
      ∃ m2, (renderExport env encodeOk tl name).1 = RenderOutcome.failure m2 ∧
        Ev.encodeStart ∉ (renderExport env encodeOk tl name).2 ∧
        (∀ nm, Ev.fileComplete nm ∉ (renderExport env encodeOk tl name).2)) := by
  refine ⟨?_, ?_, ?_, ?_⟩
  · intro e hstop hsn
    have hns : ¬ s > env.natural it.path := not_lt.mpr hsn
    rw [hstop] at hit
    simp [renderItem, hit, hr, hns]
  · intro hstop hsn
    have hns : ¬ s > env.natural it.path := not_lt.mpr hsn
    rw [hstop] at hit
    by_cases h0 : s > 0
    · simp [renderItem, hit, hr, hns, h0]
    · have hz : s = 0 := le_antisymm (not_lt.mp h0) hs
      simp [renderItem, hit, hr, h0, hz]
  · intro hstop hlt
    rw [hstop] at hit
    have h0 : s > 0 := lt_of_le_of_lt hnat hlt
    exact ⟨"t_start should be smaller than the clip duration",
      by simp [renderItem, hit, hr, h0, hlt]⟩
  · intro tl encodeOk m hmem herr
    obtain ⟨m2, hm2⟩ := normalize_error_of_mem env tl it m hmem herr
    have hempf : tl.isEmpty = false := by
      cases tl with
      | nil => cases hmem
      | cons a l => rfl
    cases hN : normalizeEv env tl with
    | mk evs res =>
      have hres : res = Except.error m2 := by
        have h2 := hm2
        simp only [normalize] at h2
        rw [hN] at h2
        exact h2
      have hdec : ∀ ev ∈ evs, ∃ p, ev = Ev.decode p := by
        have h := normalizeEv_events_decode env tl
        rw [hN] at h
        exact h
      subst hres
      refine ⟨m2, by simp [renderExport, hempf, hN], ?_, ?_⟩
      · simp only [renderExport, hempf, Bool.false_eq_true, if_false, hN]
        intro hmem2
        rcases List.mem_append.mp hmem2 with hl | hr2
        · obtain ⟨p, hp⟩ := hdec _ hl; cases hp
        · simp at hr2
      · intro nm
        simp only [renderExport, hempf, Bool.false_eq_true, if_false, hN]
        intro hmem2
        rcases List.mem_append.mp hmem2 with hl | hr2
        · obtain ⟨p, hp⟩ := hdec _ hl; cases hp
        · simp at hr2

/-- Video item with an explicit trim window [2, 5). -/
def itV : MediaItem := ⟨1, "b.mp4", ItemFields.video 2 (some 5)⟩

/-- Witness for the amended duration-resolution theorem at the trimmed video
item under the 10-second environment. -/
theorem video_duration_resolution_witness :
    (∀ e : ℚ, (some (5 : ℚ)) = some e → (2 : ℚ) ≤ env0.natural itV.path →
      renderItem env0 itV = Except.ok ⟨itV.path, 2, e - 2⟩) ∧
    ((some (5 : ℚ)) = none → (2 : ℚ) ≤ env0.natural itV.path →
      renderItem env0 itV = Except.ok ⟨itV.path, 2, env0.natural itV.path - 2⟩) ∧
    ((some (5 : ℚ)) = none → env0.natural itV.path < 2 →
      ∃ m, renderItem env0 itV = Except.error m) ∧
    (∀ (tl : List MediaItem) (encodeOk : Bool) (m : String), itV ∈ tl →
      renderItem env0 itV = Except.error m →
      ∃ m2, (renderExport env0 encodeOk tl "o.mp4").1 = RenderOutcome.failure m2 ∧
        Ev.encodeStart ∉ (renderExport env0 encodeOk tl "o.mp4").2 ∧
        (∀ nm, Ev.fileComplete nm ∉ (renderExport env0 encodeOk tl "o.mp4").2)) :=
  video_duration_resolution env0 itV 2 (some 5) "o.mp4" rfl rfl (by norm_num)
    (by norm_num [env0])

end ClaimC5

section ClaimC3

/-- Store with a single freshly added video item (start 0, no trim end). -/
def st3 : Store := ⟨[⟨0, "v.mp4", ItemFields.video 0 none⟩], 1⟩

/-- C3 counterexample: updating the video item to `start = 5`, `end = 3`
violates the `trimEnd > trimStart` invariant, yet the edit controls apply it:
the store changes and the violating values are stored — no rejection, no
`ValidationError`, the store is not left as it was. -/
theorem violating_update_changes_store :
    editVideo st3 0 5 3 ≠ st3 ∧
    (editVideo st3 0 5 3).timeline =
      [⟨0, "v.mp4", ItemFields.video 5 (some 3)⟩] ∧
    (3 : ℚ) ≤ 5 := by
  refine ⟨?_, ?_, by norm_num⟩
  · decide
  · decide

/-- C3 (amended): an edit of a video item's start/end fields is applied
unconditionally, with no invariant validation and no error channel: the new
start is stored as given and the new end is stored as given when positive
(stored as absent otherwise), even when the resulting trim end is at or below
the trim start; the item's id, every other timeline entry and the counter are
untouched. -/
theorem editVideoFields_on_video (s e : ℚ) (it : MediaItem) (s0 : ℚ)
    (stop0 : Option ℚ) (hv : it.fields = ItemFields.video s0 stop0) :
    editVideoFields s e it =
      ⟨it.id, it.path, ItemFields.video s (if e > 0 then some e else none)⟩ := by
  rcases it with ⟨i, p, f⟩
  simp only at hv
  subst hv
  simp [editVideoFields]

theorem update_applied_unconditionally (st : Store) (idx : ℕ) (s e : ℚ)
    (h : idx < st.timeline.length) (s0 : ℚ) (stop0 : Option ℚ)
    (hv : (st.timeline.getD idx default).fields = ItemFields.video s0 stop0) :
    (editVideo st idx s e).counter = st.counter ∧
    (editVideo st idx s e).timeline.length = st.timeline.length ∧
    (editVideo st idx s e).timeline[idx]? =
      some ⟨(st.timeline.getD idx default).id, (st.timeline.getD idx default).path,
        ItemFields.video s (if e > 0 then some e else none)⟩ ∧
    ∀ j, j ≠ idx → (editVideo st idx s e).timeline[j]? = st.timeline[j]? := by
  refine ⟨rfl, by simp [editVideo], ?_, ?_⟩
  · have hset : (editVideo st idx s e).timeline[idx]? =
        some (editVideoFields s e (st.timeline.getD idx default)) := by
      simp [editVideo, List.getElem?_set_self, h]
    rw [hset, editVideoFields_on_video s e _ s0 stop0 hv]
  · intro j hj
    simp [editVideo, List.getElem?_set_ne (Ne.symm hj)]

/-- Witness for the unconditional-update theorem at the invariant-violating
edit `start = 5`, `end = 3` on the one-video store. -/
theorem update_applied_unconditionally_witness :
    (editVideo st3 0 5 3).counter = st3.counter ∧
    (editVideo st3 0 5 3).timeline.length = st3.timeline.length ∧
    (editVideo st3 0 5 3).timeline[0]? =
      some ⟨(st3.timeline.getD 0 default).id, (st3.timeline.getD 0 default).path,
        ItemFields.video 5 (if (3 : ℚ) > 0 then some 3 else none)⟩ ∧
    ∀ j, j ≠ 0 → (editVideo st3 0 5 3).timeline[j]? = st3.timeline[j]? :=
  update_applied_unconditionally st3 0 5 3 (by decide) 0 none (by decide)

end ClaimC3

section SwapLemmas

variable {α : Type}

theorem swapAdj_length (l : List α) (i : ℕ) : (swapAdj l i).length = l.length := by
  induction l generalizing i with
  | nil => cases i <;> rfl
  | cons a rest ih =>
    cases i with
    | zero =>
      cases rest with
      | nil => rfl
      | cons b r => rfl
    | succ n => simp [swapAdj, ih]

theorem swapAdj_perm (l : List α) (i : ℕ) : (swapAdj l i).Perm l := by
  induction l generalizing i with
  | nil => cases i <;> exact List.Perm.refl _
  | cons a rest ih =>
    cases i with
    | zero =>
      cases rest with
      | nil => exact List.Perm.refl _
      | cons b r => exact List.Perm.swap a b r
    | succ n => simpa [swapAdj] using List.Perm.cons a (ih n)

theorem swapAdj_get_fst (l : List α) (i : ℕ) (h : i + 1 < l.length) :
    (swapAdj l i)[i]? = l[i + 1]? := by
  induction l generalizing i with
  | nil => simp at h
  | cons a rest ih =>
    cases i with
    | zero =>
      cases rest with
      | nil => simp at h
      | cons b r => simp [swapAdj]
    | succ n =>
      simp only [List.length_cons, Nat.add_lt_add_iff_right] at h
      simp only [swapAdj, List.getElem?_cons_succ]
      exact ih n h

theorem swapAdj_get_snd (l : List α) (i : ℕ) (h : i + 1 < l.length) :
    (swapAdj l i)[i + 1]? = l[i]? := by
  induction l generalizing i with
  | nil => simp at h
  | cons a rest ih =>
    cases i with
    | zero =>
      cases rest with
      | nil => simp at h
      | cons b r => simp [swapAdj]
    | succ n =>
      simp only [List.length_cons, Nat.add_lt_add_iff_right] at h
      simp only [swapAdj, List.getElem?_cons_succ]
      exact ih n h

theorem swapAdj_get_other (l : List α) (i j : ℕ) (h1 : j ≠ i) (h2 : j ≠ i + 1) :
    (swapAdj l i)[j]? = l[j]? := by
  induction l generalizing i j with
  | nil => cases i <;> rfl
  | cons a rest ih =>
    cases i with
    | zero =>
      cases rest with
      | nil => rfl
      | cons b r =>
        cases j with
        | zero => exact absurd rfl h1
        | succ m =>
          cases m with
          | zero => exact absurd rfl h2
          | succ k => simp [swapAdj]
    | succ n =>
      cases j with
      | zero => simp [swapAdj]
      | succ m =>
        simp only [swapAdj, List.getElem?_cons_succ]
        exact ih n m (by omega) (by omega)

end SwapLemmas

/-- C7: Move Up at the first position and Move Down at the last position leave
the session state completely unchanged (clamped no-ops, not errors); at any
other position Move Up swaps the item with its predecessor and Move Down with
its successor, changing nothing else — not the length, not the counter, not
any other position. -/
theorem move_clamped_swap (st : Store) :
    moveUp st 0 = st ∧
    moveDown st (st.timeline.length - 1) = st ∧
    (∀ idx, 0 < idx → idx < st.timeline.length →
      (moveUp st idx).counter = st.counter ∧
      (moveUp st idx).timeline.length = st.timeline.length ∧
      (moveUp st idx).timeline[idx - 1]? = st.timeline[idx]? ∧
      (moveUp st idx).timeline[idx]? = st.timeline[idx - 1]? ∧
      ∀ j, j ≠ idx - 1 → j ≠ idx → (moveUp st idx).timeline[j]? = st.timeline[j]?) ∧
    (∀ idx, idx + 1 < st.timeline.length →
      (moveDown st idx).counter = st.counter ∧
      (moveDown st idx).timeline.length = st.timeline.length ∧
      (moveDown st idx).timeline[idx]? = st.timeline[idx + 1]? ∧
      (moveDown st idx).timeline[idx + 1]? = st.timeline[idx]? ∧
      ∀ j, j ≠ idx → j ≠ idx + 1 → (moveDown st idx).timeline[j]? = st.timeline[j]?) := by
  refine ⟨?_, ?_, ?_, ?_⟩
  · simp [moveUp]
  · have : ¬ st.timeline.length - 1 < st.timeline.length - 1 := lt_irrefl _
    simp [moveDown, this]
  · intro idx h0 hlen
    obtain ⟨k, rfl⟩ : ∃ k, idx = k + 1 := ⟨idx - 1, (Nat.succ_pred_eq_of_pos h0).symm⟩
    have hguard : 0 < k + 1 ∧ k + 1 < st.timeline.length := ⟨Nat.succ_pos k, hlen⟩
    have hk : k + 1 - 1 = k := by omega
    refine ⟨by simp [moveUp, hguard], ?_, ?_, ?_, ?_⟩
    · simp [moveUp, hguard, swapAdj_length]
    · simp only [moveUp, if_pos hguard, hk]
      exact swapAdj_get_fst st.timeline k hlen
    · simp only [moveUp, if_pos hguard, hk]
      exact swapAdj_get_snd st.timeline k hlen
    · intro j hj1 hj2
      rw [hk] at hj1
      simp only [moveUp, if_pos hguard, hk]
      exact swapAdj_get_other st.timeline k j hj1 hj2
  · intro idx hlen
    have hguard : idx < st.timeline.length - 1 := by omega
    refine ⟨by simp [moveDown, hguard], ?_, ?_, ?_, ?_⟩
    · simp [moveDown, hguard, swapAdj_length]
    · simp only [moveDown, if_pos hguard]
      exact swapAdj_get_fst st.timeline idx hlen
    · simp only [moveDown, if_pos hguard]
      exact swapAdj_get_snd st.timeline idx hlen
    · intro j hj1 hj2
      simp only [moveDown, if_pos hguard]
      exact swapAdj_get_other st.timeline idx j hj1 hj2

/-- Store with three items, for exercising the move operations. -/
def st7 : Store :=
  ⟨[⟨0, "a.jpg", ItemFields.image 3⟩, ⟨1, "b.mp4", ItemFields.video 0 none⟩,
    ⟨2, "c.jpg", ItemFields.image 3⟩], 3⟩

/-- Witness: on the three-item store, Move Up at position 0 is a no-op and
Move Up at position 1 exchanges exactly positions 0 and 1. -/
theorem move_clamped_swap_witness :
    moveUp st7 0 = st7 ∧
    (0 < 1 ∧ 1 < st7.timeline.length) ∧
    (moveUp st7 1).timeline[0]? = st7.timeline[1]? ∧
    (moveUp st7 1).timeline[2]? = st7.timeline[2]? :=
  ⟨(move_clamped_swap st7).1, ⟨by decide, by decide⟩,
    ((move_clamped_swap st7).2.2.1 1 (by decide) (by decide)).2.2.1,
    ((move_clamped_swap st7).2.2.1 1 (by decide) (by decide)).2.2.2.2 2
      (by decide) (by decide)⟩

section ClaimC8

theorem editVideoFields_id (s e : ℚ) (it : MediaItem) :
    (editVideoFields s e it).id = it.id := by
  rcases it with ⟨i, p, f⟩
  cases f <;> rfl

theorem editImageFields_id (d : ℚ) (it : MediaItem) :
    (editImageFields d it).id = it.id := by
  rcases it with ⟨i, p, f⟩
  cases f <;> rfl

theorem map_id_set_edit (tl : List MediaItem) (idx : ℕ) (f : MediaItem → MediaItem)
    (hf : ∀ it, (f it).id = it.id) :
    (tl.set idx (f (tl.getD idx default))).map (fun it => it.id) =
      tl.map (fun it => it.id) := by
  induction tl generalizing idx with
  | nil => rfl
  | cons a rest ih =>
    cases idx with
    | zero => simp [List.getD_cons_zero, hf]
    | succ n =>
      simp only [List.set_cons_succ, List.getD_cons_succ, List.map_cons, ih]

theorem storeInv_append_fresh (tl : List MediaItem) (c : ℕ) (p : String)
    (f : ItemFields) (h : StoreInv ⟨tl, c⟩) : StoreInv ⟨tl ++ [⟨c, p, f⟩], c + 1⟩ := by
  obtain ⟨hnd, hlt⟩ := h
  constructor
  · rw [List.map_append, List.nodup_append]
    refine ⟨hnd, List.nodup_singleton _, ?_⟩
    intro x hx hxc
    simp only [List.map_cons, List.map_nil, List.mem_singleton] at hxc
    obtain ⟨it, hit, hid⟩ := List.mem_map.mp hx
    have : it.id < c := hlt it hit
    omega
  · intro it hit
    rcases List.mem_append.mp hit with hold | hnew
    · exact Nat.lt_succ_of_lt (hlt it hold)
    · simp only [List.mem_singleton] at hnew
      rw [hnew]
      exact Nat.lt_succ_self c

theorem storeInv_of_map_id_eq (tl tl2 : List MediaItem) (c : ℕ)
    (hmap : tl2.map (fun it => it.id) = tl.map (fun it => it.id))
    (h : StoreInv ⟨tl, c⟩) : StoreInv ⟨tl2, c⟩ := by
  obtain ⟨hnd, hlt⟩ := h
  constructor
  · rw [hmap]; exact hnd
  · intro it hit
    have hm : it.id ∈ tl2.map (fun it => it.id) := List.mem_map_of_mem _ hit
    rw [hmap] at hm
    obtain ⟨u, hu, hid⟩ := List.mem_map.mp hm
    rw [← hid]
    exact hlt u hu

theorem storeInv_of_perm (tl tl2 : List MediaItem) (c : ℕ)
    (hperm : tl2.Perm tl) (h : StoreInv ⟨tl, c⟩) : StoreInv ⟨tl2, c⟩ := by
  obtain ⟨hnd, hlt⟩ := h
  exact ⟨(hperm.map (fun it => it.id)).symm.nodup hnd,
    fun it hit => hlt it (hperm.subset hit)⟩

theorem applyOp_inv (st : Store) (op : Op) (h : StoreInv st) :
    StoreInv (applyOp st op) := by
  cases op with
  | addImage p => exact storeInv_append_fresh st.timeline st.counter p _ h
  | addVideo p => exact storeInv_append_fresh st.timeline st.counter p _ h
  | remove i =>
    obtain ⟨hnd, hlt⟩ := h
    constructor
    · exact List.Nodup.sublist
        (List.Sublist.map _ (List.eraseIdx_sublist st.timeline i)) hnd
    · intro it hit
      exact hlt it ((List.eraseIdx_sublist st.timeline i).subset hit)
  | up i =>
    simp only [applyOp, moveUp]
    split
    · exact storeInv_of_perm st.timeline _ st.counter (swapAdj_perm _ _) h
    · exact h
  | down i =>
    simp only [applyOp, moveDown]
    split
    · exact storeInv_of_perm st.timeline _ st.counter (swapAdj_perm _ _) h
    · exact h
  | editV i s e =>
    exact storeInv_of_map_id_eq st.timeline _ st.counter
      (map_id_set_edit st.timeline i _ (editVideoFields_id s e)) h
  | editI i d =>
    exact storeInv_of_map_id_eq st.timeline _ st.counter
      (map_id_set_edit st.timeline i _ (editImageFields_id d)) h

theorem storeInv_init : StoreInv Store.init :=
  ⟨List.nodup_nil, fun it h => absurd h (List.not_mem_nil it)⟩

theorem storeInv_foldl (ops : List Op) :
    ∀ st, StoreInv st → StoreInv (ops.foldl applyOp st) := by
  induction ops with
  | nil => intro st h; exact h
  | cons op rest ih => intro st h; exact ih _ (applyOp_inv st op h)

theorem counter_le_applyOp (st : Store) (op : Op) :
    st.counter ≤ (applyOp st op).counter := by
  cases op with
  | addImage p => exact Nat.le_succ _
  | addVideo p => exact Nat.le_succ _
  | remove i => exact le_refl _
  | up i =>
    simp only [applyOp, moveUp]
    split <;> exact le_refl _
  | down i =>
    simp only [applyOp, moveDown]
    split <;> exact le_refl _
  | editV i s e => exact le_refl _
  | editI i d => exact le_refl _

theorem counter_le_foldl (ops : List Op) :
    ∀ st : Store, st.counter ≤ (ops.foldl applyOp st).counter := by
  induction ops with
  | nil => intro st; exact le_refl _
  | cons op rest ih =>
    intro st
    exact le_trans (counter_le_applyOp st op) (ih _)

/-- C8: in any session (any sequence of UI actions from a fresh state) the
store invariant holds — ids are pairwise distinct and all below the counter —
an add appends at the end with the next id (the current counter) and bumps
the counter, the counter never decreases over the session (so a removed id,
being below the counter at removal time, can never be assigned again), and
reorder and edit operations keep the multiset (reorder) resp. the exact
sequence (edit) of ids unchanged. -/
theorem ids_unique_never_reused (ops : List Op) :
    StoreInv (run ops) ∧
    (∀ p, applyOp (run ops) (Op.addImage p) =
      ⟨(run ops).timeline ++ [⟨(run ops).counter, p, ItemFields.image 3⟩],
        (run ops).counter + 1⟩) ∧
    (∀ p, applyOp (run ops) (Op.addVideo p) =
      ⟨(run ops).timeline ++ [⟨(run ops).counter, p, ItemFields.video 0 none⟩],
        (run ops).counter + 1⟩) ∧
    (∀ pre suf, ops = pre ++ suf → (run pre).counter ≤ (run ops).counter) ∧
    (∀ i, ((applyOp (run ops) (Op.up i)).timeline.map (fun it => it.id)).Perm
      ((run ops).timeline.map (fun it => it.id))) ∧
    (∀ i, ((applyOp (run ops) (Op.down i)).timeline.map (fun it => it.id)).Perm
      ((run ops).timeline.map (fun it => it.id))) ∧
    (∀ i s e, (applyOp (run ops) (Op.editV i s e)).timeline.map (fun it => it.id) =
      (run ops).timeline.map (fun it => it.id)) ∧
    (∀ i d, (applyOp (run ops) (Op.editI i d)).timeline.map (fun it => it.id) =
      (run ops).timeline.map (fun it => it.id)) := by
  refine ⟨storeInv_foldl ops Store.init storeInv_init, fun p => rfl, fun p => rfl,
    ?_, ?_, ?_, ?_, ?_⟩
  · intro pre suf hsplit
    rw [hsplit]
    show (run pre).counter ≤ ((pre ++ suf).foldl applyOp Store.init).counter
    rw [List.foldl_append]
    exact counter_le_foldl suf (run pre)
  · intro i
    simp only [applyOp, moveUp]
    split
    · exact (swapAdj_perm _ _).map _
    · exact List.Perm.refl _
  · intro i
    simp only [applyOp, moveDown]
    split
    · exact (swapAdj_perm _ _).map _
    · exact List.Perm.refl _
  · intro i s e
    exact map_id_set_edit _ i _ (editVideoFields_id s e)
  · intro i d
    exact map_id_set_edit _ i _ (editImageFields_id d)

/-- Concrete session: add two items, remove the first, move, edit. -/
def ops8 : List Op :=
  [Op.addImage "a.jpg", Op.addVideo "b.mp4", Op.remove 0, Op.up 1, Op.editV 0 1 0]

/-- Witness: the invariant holds after the concrete session, and the counter
after the first add never exceeds the final counter. -/
theorem ids_unique_never_reused_witness :
    StoreInv (run ops8) ∧ (run [Op.addImage "a.jpg"]).counter ≤ (run ops8).counter :=
  ⟨(ids_unique_never_reused ops8).1,
    (ids_unique_never_reused ops8).2.2.2.1 [Op.addImage "a.jpg"]
      [Op.addVideo "b.mp4", Op.remove 0, Op.up 1, Op.editV 0 1 0] rfl⟩

end ClaimC8

section ClaimC9

theorem normalize_cons (env : MediaEnv) (it : MediaItem) (rest : List MediaItem) :
    normalize env (it :: rest) =
      match renderItem env it with
      | Except.error m => Except.error m
      | Except.ok seg => (normalize env rest).map (fun segs => seg :: segs) := by
  simp only [normalize, normalizeEv]
  cases hr : renderItem env it with
  | error m => rfl
  | ok seg => rfl

theorem liveNormalize_no_edits (env : MediaEnv) (fuel : ℕ) :
    ∀ (i : ℕ) (tl : List MediaItem), tl.length ≤ i + fuel →
      liveNormalize env fuel i tl (fun _ t => t) = normalize env (tl.drop i) := by
  induction fuel with
  | zero =>
    intro i tl h
    rw [List.drop_eq_nil_of_le (by omega)]
    rfl
  | succ fuel ih =>
    intro i tl h
    by_cases hi : i < tl.length
    · rw [List.drop_eq_getElem_cons hi, normalize_cons]
      simp only [liveNormalize, List.get_eq_getElem]
      rw [dif_pos hi]
      cases hr : renderItem env tl[i] with
      | error m => rfl
      | ok seg =>
        rw [ih (i + 1) tl (by omega)]
        cases hn : normalize env (tl.drop (i + 1)) with
        | error m => simp [Except.map]
        | ok segs => simp [Except.map]
    · rw [List.drop_eq_nil_of_le (by omega)]
      simp only [liveNormalize]
      rw [dif_neg hi]
      rfl

/-- One-image timeline at render start. -/
def tl9 : List MediaItem := [⟨0, "a.jpg", ItemFields.image 3⟩]

/-- Edit schedule: right after the first item is processed, a second image is
appended to the live timeline (an edit landing while the render is in
flight). -/
def sched9 : ℕ → List MediaItem → List MediaItem :=
  fun i tl => if i = 0 then tl ++ [⟨1, "c.jpg", ItemFields.image 3⟩] else tl

/-- C9 counterexample: the render loop iterates the live session-state list,
not a captured snapshot. Appending an item between the loop's first and second
iteration makes the in-flight render emit TWO segments, while the render of
the timeline as it stood at render start emits one — an edit made while the
render is in flight does change that render's output. -/
theorem interleaved_edit_changes_render :
    liveNormalize env0 3 0 tl9 sched9 =
      Except.ok [⟨"a.jpg", 0, 3⟩, ⟨"c.jpg", 0, 3⟩] ∧
    normalize env0 tl9 = Except.ok [⟨"a.jpg", 0, 3⟩] ∧
    liveNormalize env0 3 0 tl9 sched9 ≠ normalize env0 tl9 := by
  refine ⟨rfl, rfl, ?_⟩
  intro hcontra
  rw [show liveNormalize env0 3 0 tl9 sched9 =
        Except.ok [(⟨"a.jpg", 0, 3⟩ : Segment), ⟨"c.jpg", 0, 3⟩] from rfl,
      show normalize env0 tl9 = Except.ok [(⟨"a.jpg", 0, 3⟩ : Segment)] from rfl]
    at hcontra
  have hlen := congrArg (fun l => l.length) (Except.ok.inj hcontra)
  simp at hlen

/-- C9 (amended): the render pass iterates the live timeline reference and
captures no snapshot, so interleaved edits do affect an in-flight render; when
no mutation interleaves (identity schedule), the live iteration produces
exactly the render of the timeline as it stood at render start. -/
theorem live_render_without_interleaved_edits (env : MediaEnv) (tl : List MediaItem)
    (fuel : ℕ) (hf : tl.length ≤ fuel) :
    liveNormalize env fuel 0 tl (fun _ t => t) = normalize env tl := by
  have h := liveNormalize_no_edits env fuel 0 tl (by omega)
  simpa using h

/-- Witness: on the two-item timeline with enough fuel, the live loop without
interleaved edits equals the snapshot render. -/
theorem live_render_without_interleaved_edits_witness :
    liveNormalize env0 2 0 tl0 (fun _ t => t) = normalize env0 tl0 :=
  live_render_without_interleaved_edits env0 tl0 2 (by decide)

end ClaimC9

section ClaimC10

/-- C10: at the video edit controls an entered end of 0 is the "to natural
end" sentinel: the stored end is as entered when strictly positive and absent
otherwise, so no explicit trim end of 0 or less can ever be stored; and after
entering 0, the subsequent render resolves the item to the full source from
the trim start onward (duration = natural length - start). -/
theorem end_zero_to_natural_end (env : MediaEnv) (it : MediaItem) (s0 : ℚ)
    (stop0 : Option ℚ) (hit : it.fields = ItemFields.video s0 stop0) (s e : ℚ)
    (hr : env.readable it.path = true) (hs : 0 ≤ s)
    (hsn : s ≤ env.natural it.path) :
    ((editVideoFields s e it).fields =
      ItemFields.video s (if e > 0 then some e else none)) ∧
    (e ≤ 0 → (editVideoFields s e it).fields = ItemFields.video s none) ∧
    (∀ e2, (editVideoFields s e it).fields = ItemFields.video s (some e2) → 0 < e2) ∧
    renderItem env (editVideoFields s 0 it) =
      Except.ok ⟨it.path, s, env.natural it.path - s⟩ := by
  have hEe := editVideoFields_on_video s e it s0 stop0 hit
  have hE0 := editVideoFields_on_video s 0 it s0 stop0 hit
  have h00 : ¬ (0 : ℚ) > 0 := lt_irrefl 0
  rw [if_neg h00] at hE0
  refine ⟨by rw [hEe], ?_, ?_, ?_⟩
  · intro he
    rw [hEe]
    simp [not_lt.mpr he]
  · intro e2 h2
    rw [hEe] at h2
    simp only at h2
    by_cases hp : e > 0
    · rw [if_pos hp] at h2
      injection h2 with hs' hstop
      injection hstop with he'
      rw [← he']
      exact hp
    · rw [if_neg hp] at h2
      injection h2 with hs' hstop
      exact Option.noConfusion hstop
  · rw [hE0]
    by_cases h0 : s > 0
    · have hns : ¬ s > env.natural it.path := not_lt.mpr hsn
      simp [renderItem, hr, h0, hns]
    · have hz : s = 0 := le_antisymm (not_lt.mp h0) hs
      simp [renderItem, hr, h0, hz]

/-- Freshly added video item: start 0, end absent. -/
def it10 : MediaItem := ⟨0, "v.mp4", ItemFields.video 0 none⟩

/-- Witness: entering start 2 and end 0 on the fresh video item stores end =
absent and renders the full source from 2s onward under the 10-second
environment. -/
theorem end_zero_to_natural_end_witness :
    ((editVideoFields 2 0 it10).fields =
      ItemFields.video 2 (if (0 : ℚ) > 0 then some 0 else none)) ∧
    ((0 : ℚ) ≤ 0 → (editVideoFields 2 0 it10).fields = ItemFields.video 2 none) ∧
    (∀ e2, (editVideoFields 2 0 it10).fields = ItemFields.video 2 (some e2) → 0 < e2) ∧
    renderItem env0 (editVideoFields 2 0 it10) =
      Except.ok ⟨it10.path, 2, env0.natural it10.path - 2⟩ :=
  end_zero_to_natural_end env0 it10 0 none rfl 2 0 rfl (by norm_num)
    (by norm_num [env0, it10])

end ClaimC10

end VideoEditor
